import Mathlib

/-
Verification of the `FeaturePreparer` component of the
Machine-Learning-Helper-Functions repository (src/__init__.py).

Modelling choices, stated once here:

* A numpy float64 value is modelled by the type `F`: an exact rational
  (`F.fin q`) or one of the IEEE special values `+inf`, `-inf`, `NaN`.
  Finite arithmetic is exact (no rounding, no overflow); a negative zero
  is not distinguished from zero.  The special-value propagation rules of
  IEEE 754 (NaN absorption, signed infinities, division by zero giving an
  infinity or NaN with only a runtime warning, `log` of a non-positive
  argument giving `-inf` or `NaN` with only a runtime warning) are modelled
  exactly, because numpy raises no exception in these cases.
* The irrational-valued functions `log`, `exp` and `sqrt` have no exact
  rational counterpart; their values on (strictly) positive rationals are
  taken from an abstract parameter record `TransFns`.  The special points
  that numpy computes exactly (`log 0 = -inf`, `log q = NaN` for `q < 0`,
  `sqrt 0 = 0`, `sqrt q = NaN` for `q < 0`, `exp (-inf) = 0`) are built in.
* A 2-D numpy array (samples x features) is modelled column-major:
  `Mat := List (List F)` is the list of its columns, each column the list
  of the entries of one feature.  `x.length` is the number of columns
  (`shape[1]`) and `nrowsOf x` the number of rows (`shape[0]`).  This makes
  the column-wise operations of the source (`x.T`, `x[:, mask]`,
  `np.concatenate(..., axis=1)`, `x[:, i:i+1] * x[:, j:j+1]`) direct list
  operations.  A zero-column matrix cannot remember its row count in this
  representation; the concatenation check therefore only compares the row
  counts of pieces that have at least one column (within the pipeline all
  pieces are derived from one input array, so this is faithful).
* Before `fit` has run, `self._non_boolean_features_mask` is `None`, and
  numpy interprets the index `x[:, None]` as `np.newaxis`: the result is a
  3-D array of shape (rows, 1, cols).  `NdArr` distinguishes the 2-D and
  the 3-D case; a 3-D array of shape (r, k, c) is stored as the list of its
  k slabs, each slab a column-major (r, c) matrix.
* `sklearn.preprocessing.StandardScaler` is an external collaborator whose
  source is not part of this repository; it is modelled from its documented
  behaviour: `fit` records per-column mean and standard deviation of a 2-D
  array (rejecting 3-D input and empty samples), a zero standard deviation
  is replaced by 1 (`_handle_zeros_in_scale`), and `transform` computes
  `(x - mean) / scale` after checking the fitted state and the feature
  count.  Its NaN-ignoring statistics (`nanmean`) are not modelled; every
  theorem below feeds the scaler finite data only.
* Python exceptions are modelled by `Except String`; the message strings
  are abbreviations of the corresponding numpy / sklearn messages.
-/

deriving instance DecidableEq for Except

namespace MLHelper

/-- Model of one numpy float64 value: an exact rational or an IEEE special
value.  Negative zero is not distinguished from zero. -/
inductive F where
  | fin (q : ℚ)
  | pinf
  | ninf
  | nan
deriving DecidableEq

/-- A value is finite when it is an ordinary rational, i.e. neither an
infinity nor NaN. -/
def F.isFinite : F → Bool
  | .fin _ => true
  | _ => false

/-
Exact rational arithmetic, written through `mkRat` so that the kernel can
evaluate it (the `Rat.add`/`Rat.mul`/`Rat.inv` primitives of the library
do not reduce definitionally).  The theorems `qadd_eq`, `qneg_eq`,
`qmul_eq`, `qinv_eq` and `qdiv_eq` below prove each of these equal to the
corresponding field operation of `ℚ`.
-/

/-- Exact rational addition (equal to `a + b`, see `qadd_eq`). -/
def qadd (a b : ℚ) : ℚ := mkRat (a.num * b.den + b.num * a.den) (a.den * b.den)

/-- Exact rational negation (equal to `-a`, see `qneg_eq`). -/
def qneg (a : ℚ) : ℚ := mkRat (-a.num) a.den

/-- Exact rational multiplication (equal to `a * b`, see `qmul_eq`). -/
def qmul (a b : ℚ) : ℚ := mkRat (a.num * b.num) (a.den * b.den)

/-- Exact rational inverse (equal to `a⁻¹`, see `qinv_eq`). -/
def qinv (a : ℚ) : ℚ :=
  if a.num < 0 then mkRat (-(a.den : ℤ)) a.num.natAbs else mkRat a.den a.num.natAbs

/-- Exact rational division (equal to `a / b`, see `qdiv_eq`). -/
def qdiv (a b : ℚ) : ℚ := qmul a (qinv b)

/-- IEEE addition on the value model. -/
def fadd : F → F → F
  | .nan, _ => .nan
  | _, .nan => .nan
  | .fin a, .fin b => .fin (qadd a b)
  | .pinf, .ninf => .nan
  | .ninf, .pinf => .nan
  | .pinf, _ => .pinf
  | _, .pinf => .pinf
  | .ninf, _ => .ninf
  | _, .ninf => .ninf

/-- IEEE negation on the value model. -/
def fneg : F → F
  | .fin q => .fin (qneg q)
  | .pinf => .ninf
  | .ninf => .pinf
  | .nan => .nan

/-- IEEE subtraction on the value model. -/
def fsub (a b : F) : F := fadd a (fneg b)

/-- IEEE multiplication on the value model; an infinity times zero is NaN. -/
def fmul : F → F → F
  | .nan, _ => .nan
  | _, .nan => .nan
  | .fin a, .fin b => .fin (qmul a b)
  | .pinf, .pinf => .pinf
  | .pinf, .ninf => .ninf
  | .ninf, .pinf => .ninf
  | .ninf, .ninf => .pinf
  | .pinf, .fin b => if 0 < b then .pinf else if b < 0 then .ninf else .nan
  | .fin a, .pinf => if 0 < a then .pinf else if a < 0 then .ninf else .nan
  | .ninf, .fin b => if 0 < b then .ninf else if b < 0 then .pinf else .nan
  | .fin a, .ninf => if 0 < a then .ninf else if a < 0 then .pinf else .nan

/-- IEEE division on the value model: division by zero gives a signed
infinity (NaN for 0/0), as numpy does under a mere runtime warning. -/
def fdiv : F → F → F
  | .nan, _ => .nan
  | _, .nan => .nan
  | .fin a, .fin b =>
      if b = 0 then (if a = 0 then .nan else if 0 < a then .pinf else .ninf)
      else .fin (qdiv a b)
  | .fin _, .pinf => .fin 0
  | .fin _, .ninf => .fin 0
  | .pinf, .fin b => if b < 0 then .ninf else .pinf
  | .ninf, .fin b => if b < 0 then .pinf else .ninf
  | _, _ => .nan

/-- Integer power `v ** p` on the value model, following numpy float
semantics: `v ** 0 = 1` (even for NaN and infinities), `0.0 ** p = inf`
for negative `p` (numpy warns, raises nothing). -/
def fpow (v : F) (p : ℤ) : F :=
  if p = 0 then .fin 1
  else
    match v with
    | .nan => .nan
    | .fin q =>
        if 0 < p then .fin (q ^ p.toNat)
        else if q = 0 then .pinf
        else .fin (qinv (q ^ (-p).toNat))
    | .pinf => if 0 < p then .pinf else .fin 0
    | .ninf => if 0 < p then (if p % 2 = 0 then .pinf else .ninf) else .fin 0

/-- Abstract float64 approximations of the transcendental functions on
positive rationals.  The pipeline below is parametric in this record; the
special points that numpy computes exactly are handled in `flog`, `fexp`
and `fsqrt` themselves. -/
structure TransFns where
  logA : ℚ → ℚ
  expA : ℚ → ℚ
  sqrtA : ℚ → ℚ

/-- Model of `np.log` on the value type: `log 0 = -inf` and `log q = NaN` for
`q < 0`, both produced under a mere runtime warning. -/
def flog (fns : TransFns) : F → F
  | .fin q => if q = 0 then .ninf else if 0 < q then .fin (fns.logA q) else .nan
  | .pinf => .pinf
  | .ninf => .nan
  | .nan => .nan

/-- Model of `np.exp` on the value type. -/
def fexp (fns : TransFns) : F → F
  | .fin q => .fin (fns.expA q)
  | .pinf => .pinf
  | .ninf => .fin 0
  | .nan => .nan

/-- Model of `np.sqrt` on the value type: exact at 0, NaN below 0. -/
def fsqrt (fns : TransFns) : F → F
  | .fin q => if q = 0 then .fin 0 else if 0 < q then .fin (fns.sqrtA q) else .nan
  | .pinf => .pinf
  | .ninf => .nan
  | .nan => .nan

/-- A 2-D numpy array, column-major: the list of its columns. -/
abbrev Mat := List (List F)

/-- A 3-D numpy array of shape (r, k, c), as the list of its k slabs. -/
abbrev Mat3 := List Mat

/-- Number of rows (`shape[0]`) of a column-major matrix. -/
def nrowsOf (x : Mat) : ℕ := (x.headD []).length

/-- A genuine numpy 2-D array is rectangular: every column has the same
length. -/
def Rect (x : Mat) : Prop := ∀ col ∈ x, col.length = nrowsOf x

instance (x : Mat) : Decidable (Rect x) := by
  unfold Rect
  exact List.decidableBAll _ x

/-- A numpy array value that is either 2-D or 3-D (the shapes the
`FeaturePreparer` pipeline can produce). -/
inductive NdArr where
  | d2 (cols : Mat)
  | d3 (slabs : Mat3)
deriving DecidableEq

/-- Boolean-mask selection `a[mask]` along a list (numpy boolean fancy
indexing, used both for matrix columns and for column names). -/
def maskFilter {α : Type} (m : List Bool) (l : List α) : List α :=
  ((l.zip m).filter (fun p => p.2)).map Prod.fst

def maskErrMsg : String := "IndexError: boolean index did not match indexed array along dimension 1"

def rowsErrMsg : String := "ValueError: array dimensions for the concatenation axis must match exactly"

def ndimErrMsg : String := "ValueError: all the input arrays must have the same number of dimensions"

def typeErrMsg : String := "TypeError: unsupported operand type for division"

def emptyErrMsg : String := "IndexError: list index out of range"

def dim3ErrMsg : String := "ValueError: found array with dim 3, expected 2"

def notFittedErrMsg : String := "NotFittedError: StandardScaler instance is not fitted yet"

def nFeatErrMsg : String := "ValueError: input has a different number of features than seen in fit"

def zeroSampErrMsg : String := "ValueError: found array with 0 samples"

def bcastErrMsg : String := "ValueError: operands could not be broadcast together"

/-- Selection `x[:, mask]` for an actual boolean mask: numpy insists that the mask
length equal the number of columns. -/
def maskSel2 (m : List Bool) (x : Mat) : Except String Mat :=
  if m.length = x.length then .ok (maskFilter m x) else .error maskErrMsg

/-- Selection `x[:, self._non_boolean_features_mask]` (line 24 of the source).
When the mask is still `None` (before fit), numpy reads the index as
`np.newaxis` and returns the 3-D array `x[:, None]` of shape
(rows, 1, cols) - one slab holding all of `x`. -/
def maskSelect (m? : Option (List Bool)) (x : Mat) : Except String NdArr :=
  match m? with
  | none => .ok (.d3 [x])
  | some m => (maskSel2 m x).map NdArr.d2

/-- Elementwise map over a column-major matrix. -/
def cmap (f : F → F) (x : Mat) : Mat := x.map (fun col => col.map f)

/-- Elementwise map over a 2-D or 3-D array (numpy ufunc application). -/
def emap (f : F → F) : NdArr → NdArr
  | .d2 x => .d2 (cmap f x)
  | .d3 s => .d3 (s.map (cmap f))

/-- One element of the powers configuration: an integer power (1 is the
identity marker) or one of the three reserved string tokens. -/
inductive PElem where
  | pow (p : ℤ)
  | perm
  | log
  | exp
deriving DecidableEq

/-- Test `type(p) is int and p != 1` (line 25 of the source). -/
def isIntPow : PElem → Option ℤ
  | .pow p => if p = 1 then none else some p
  | _ => none

/-- Conversion `str(p)` for a configuration element. -/
def pstr : PElem → String
  | .pow p => toString p
  | .perm => "perm"
  | .log => "log"
  | .exp => "exp"

/-- The mutable state of a `FeaturePreparer` instance: the configuration
and the three artifacts learned at fit time. -/
structure Preparer where
  powers : List PElem
  mask : Option (List Bool)
  origStd : Option (List F)
  scalerStats : Option (List F × List F)
deriving DecidableEq

/-- Constructor `__init__`: `self.powers = powers or [1]` (an empty configuration
falls back to the identity-only default), fresh scaler, mask and original
standard deviations unset. -/
def mkPreparer (ps : List PElem) : Preparer :=
  { powers := if ps = [] then [PElem.pow 1] else ps
    mask := none
    origStd := none
    scalerStats := none }

/-- Whether all numbers in the list agree (used for the concatenation
shape check). -/
def allSame (l : List ℕ) : Bool :=
  match l with
  | [] => true
  | a :: t => t.all (fun b => b = a)

/-- Model of `np.concatenate(pieces, axis=1)` for 2-D pieces: the row counts must
agree (compared over the pieces that still carry a row count, i.e. have at
least one column), and the column lists are joined. -/
def hstack2 (ms : List Mat) : Except String Mat :=
  if allSame ((ms.filter (fun m => !m.isEmpty)).map nrowsOf) then .ok ms.flatten
  else .error rowsErrMsg

/-- Shape (r, c) of the leading slab of a 3-D array, the two axes that
`np.concatenate(..., axis=1)` compares. -/
def dims3Of (t : Mat3) : ℕ × ℕ := (nrowsOf (t.headD []), (t.headD []).length)

/-- Model of `np.concatenate(pieces, axis=1)` for 3-D pieces: axes 0 and 2 must
agree and the slab lists are joined. -/
def hstack3 (ss : List Mat3) : Except String Mat3 :=
  match ss with
  | [] => .error rowsErrMsg
  | s0 :: rest =>
      if rest.all (fun t => decide (dims3Of t = dims3Of s0)) then .ok ((s0 :: rest).flatten)
      else .error rowsErrMsg

/-- View a list of arrays as all-2-D, when they are. -/
def allD2 : List NdArr → Option (List Mat)
  | [] => some []
  | .d2 m :: rest => (allD2 rest).map (fun ms => m :: ms)
  | .d3 _ :: _ => none

/-- View a list of arrays as all-3-D, when they are. -/
def allD3 : List NdArr → Option (List Mat3)
  | [] => some []
  | .d3 t :: rest => (allD3 rest).map (fun ts => t :: ts)
  | .d2 _ :: _ => none

/-- Model of `np.concatenate(f_list, axis=1)`: all 2-D, or all 3-D, otherwise the
dimension-mismatch `ValueError`. -/
def npConcat (l : List NdArr) : Except String NdArr :=
  match allD2 l with
  | some ms => (hstack2 ms).map NdArr.d2
  | none =>
      match allD3 l with
      | some ss => (hstack3 ss).map NdArr.d3
      | none => .error ndimErrMsg

/-- Line 32 of the source: concatenate when more than one piece was
produced, return the single piece as-is otherwise (`f_list[0]` raises an
IndexError on an empty list). -/
def finishPieces (l : List NdArr) : Except String NdArr :=
  match l with
  | [] => .error emptyErrMsg
  | [a] => .ok a
  | _ => npConcat l

/-- Division `non_boolean_features / self.__orig_std` of the exp branch:
division by `None` (std never learned) is a Python `TypeError`; a 2-D
array is divided column-by-column by the std vector (numpy broadcasting,
which requires matching widths here); the 3-D case cannot be reached with
a learned std vector in the pipeline and is modelled as the broadcast
error numpy would raise for mismatching trailing axes. -/
def edivStd (arr : NdArr) (std? : Option (List F)) : Except String NdArr :=
  match std? with
  | none => .error typeErrMsg
  | some sds =>
      match arr with
      | .d2 x =>
          if x.length = sds.length then
            .ok (.d2 (List.zipWith (fun col sv => col.map (fun v => fdiv v sv)) x sds))
          else .error bcastErrMsg
      | .d3 _ => .error bcastErrMsg

/-- Translation of `apply_powers` (lines 20-32 of the source), piece by piece:
identity piece when `1` is configured, then `x[:, mask]` (line 24), then
one piece per integer power other than 1, then the pairwise products of
the original columns when `"perm"` is configured, then `log(nbf + 1)` when
`"log"` is configured, then `exp(nbf / orig_std)` when `"exp"` is
configured, and finally the concatenation step of line 32. -/
def apply_powers (fns : TransFns) (s : Preparer) (x : Mat) : Except String NdArr := do
  let f1 : List NdArr := if PElem.pow 1 ∈ s.powers then [.d2 x] else []
  let nbf ← maskSelect s.mask x
  let fpows : List NdArr :=
    (s.powers.filterMap isIntPow).map (fun p => emap (fun v => fpow v p) nbf)
  let fperm : List NdArr :=
    if PElem.perm ∈ s.powers then
      (List.range x.length).flatMap (fun i =>
        (List.range (i + 1)).map (fun j =>
          NdArr.d2 [List.zipWith fmul (x.getD i []) (x.getD j [])]))
    else []
  let flogs : List NdArr :=
    if PElem.log ∈ s.powers then [emap (fun v => flog fns (fadd v (F.fin 1))) nbf] else []
  let fexps : List NdArr ←
    if PElem.exp ∈ s.powers then do
      let d ← edivStd nbf s.origStd
      pure [emap (fexp fns) d]
    else pure []
  finishPieces (f1 ++ fpows ++ fperm ++ flogs ++ fexps)

/-- Sum of a column (numpy reduction; fold order irrelevant on the finite
data all theorems below use). -/
def fsum (l : List F) : F := l.foldl fadd (F.fin 0)

/-- Model of `np.mean` of a column (mean of an empty column is NaN via 0/0, as in
numpy). -/
def colMean (l : List F) : F := fdiv (fsum l) (F.fin l.length)

/-- Population variance of a column, `mean((v - mean)^2)`. -/
def colVar (l : List F) : F :=
  colMean (l.map (fun v => fmul (fsub v (colMean l)) (fsub v (colMean l))))

/-- Model of `np.std` of a column (population standard deviation). -/
def colStd (fns : TransFns) (l : List F) : F := fsqrt fns (colVar l)

/-- sklearn's `_handle_zeros_in_scale`: a zero scale is replaced by 1. -/
def handleZero (v : F) : F := if v = F.fin 0 then F.fin 1 else v

/-- The statistics `StandardScaler.fit` learns from a 2-D array: per-column
mean, and per-column standard deviation with zeros replaced by 1. -/
def fitStats (fns : TransFns) (e : Mat) : List F × List F :=
  (e.map colMean, e.map (fun col => handleZero (colStd fns col)))

/-- Model of `StandardScaler.fit`, from the documented behaviour of the
external sklearn collaborator: rejects 3-D input and empty samples,
records mean and zero-guarded scale per column. -/
def scalerFit (fns : TransFns) : NdArr → Except String (List F × List F)
  | .d3 _ => .error dim3ErrMsg
  | .d2 e => if nrowsOf e = 0 then .error zeroSampErrMsg else .ok (fitStats fns e)

/-- Model of `StandardScaler.transform`, from the documented behaviour of
the external sklearn collaborator: requires a fitted scaler, 2-D input and
the fitted feature count, then computes `(x - mean) / scale` columnwise. -/
def scalerTransform (stats? : Option (List F × List F)) (arr : NdArr) : Except String Mat :=
  match stats? with
  | none => .error notFittedErrMsg
  | some st =>
      match arr with
      | .d3 _ => .error dim3ErrMsg
      | .d2 e =>
          if e.length = st.1.length then
            .ok (List.zipWith (fun col p => col.map (fun v => fdiv (fsub v p.1) p.2))
              e (st.1.zip st.2))
          else .error nFeatErrMsg

/-- The matrix `transform` produces on the very data the scaler was fitted
on (a derived description used to state claims, not a separate code path). -/
def stdResult (fns : TransFns) (e : Mat) : Mat :=
  List.zipWith (fun col p => col.map (fun v => fdiv (fsub v p.1) p.2))
    e ((fitStats fns e).1.zip (fitStats fns e).2)

/-- All columns of a matrix have length `r` (the shape invariant of a
rectangular numpy array with `r` rows, phrased for an arbitrary `r`). -/
def ColsLen (r : ℕ) (x : Mat) : Prop := ∀ col ∈ x, col.length = r

instance (r : ℕ) (x : Mat) : Decidable (ColsLen r x) := by
  unfold ColsLen
  exact List.decidableBAll _ x

/-- The identity piece of the expansion: the original columns when the
identity marker `1` is configured (a derived description of the
corresponding branch of `apply_powers`, used to state claims). -/
def idSeg (s : Preparer) (x : Mat) : Mat := if PElem.pow 1 ∈ s.powers then x else []

/-- The integer-power pieces of the expansion, one matrix per configured
integer power other than 1 (a derived description, used to state claims). -/
def powSegs (s : Preparer) (nbf : Mat) : List Mat :=
  (s.powers.filterMap isIntPow).map (fun p => cmap (fun v => fpow v p) nbf)

/-- The pairwise-product columns of the expansion: for every pair of
column indices (i, j) with j <= i < n, outer index ascending, inner index
ascending, the elementwise product of columns i and j of the original
matrix (a derived description, used to state claims). -/
def permSeg (x : Mat) : Mat :=
  (List.range x.length).flatMap (fun i =>
    (List.range (i + 1)).map (fun j => List.zipWith fmul (x.getD i []) (x.getD j [])))

/-- The log piece of the expansion: `log(col + 1)` for each non-boolean
column (a derived description, used to state claims). -/
def logSeg (fns : TransFns) (nbf : Mat) : Mat :=
  cmap (fun v => flog fns (fadd v (F.fin 1))) nbf

/-- The exp piece of the expansion: `exp(col / std)` columnwise (a derived
description, used to state claims). -/
def expSeg (fns : TransFns) (nbf : Mat) (sds : List F) : Mat :=
  cmap (fexp fns) (List.zipWith (fun col sv => col.map (fun v => fdiv v sv)) nbf sds)

/-- Line 35 of the source: one mask entry per column, true iff the column
has more than two distinct values (`len(np.unique(col)) > 2`). -/
def computeMask (x : Mat) : List Bool := x.map (fun col => decide (2 < col.dedup.length))

/-- Line 37 of the source: per-column `np.std` of the non-boolean columns
of the raw fitting data. -/
def origStdOf (fns : TransFns) (nbf : Mat) : List F := nbf.map (colStd fns)

/-- Translation of `__fit` (lines 34-40 of the source): compute and store the mask, then
the original standard deviations, then expand, then fit the scaler on the
expansion; returns the new state together with the expanded matrix. -/
def fitInner (fns : TransFns) (s : Preparer) (x : Mat) : Except String (Preparer × NdArr) := do
  let m := computeMask x
  let nbf ← maskSel2 m x
  let s2 : Preparer := { s with mask := some m, origStd := some (origStdOf fns nbf) }
  let xnew ← apply_powers fns s2 x
  let st ← scalerFit fns xnew
  pure ({ s2 with scalerStats := some st }, xnew)

/-- Translation of `fit` (lines 42-44): run `__fit` and return the (mutated) instance. -/
def fit (fns : TransFns) (s : Preparer) (x : Mat) : Except String Preparer :=
  (fitInner fns s x).map Prod.fst

/-- Translation of `transform` (lines 46-48): expand with the learned state, then apply
the learned scaler statistics. -/
def transform (fns : TransFns) (s : Preparer) (x : Mat) : Except String Mat := do
  let xnew ← apply_powers fns s x
  scalerTransform s.scalerStats xnew

/-- Translation of `fit_transform` (lines 50-52): run `__fit`, then apply the freshly
learned scaler statistics to the expansion computed during the fit. -/
def fit_transform (fns : TransFns) (s : Preparer) (x : Mat) : Except String (Preparer × Mat) := do
  let r ← fitInner fns s x
  let y ← scalerTransform r.1.scalerStats r.2
  pure (r.1, y)

/-- Translation of `expand_columns_names_list` (lines 54-58 of the source): select the
non-boolean names with the learned mask, prefix each of them with
`str(p) + "_"` for every configured element `p != 1` (note: the source
does not restrict this to integer powers), and append after the original
names.  The unfitted call (`mask` still `None`) runs into numpy string
type promotion and is not modelled beyond being an error; every claim
about this routine concerns a fitted instance. -/
def expand_columns_names_list (s : Preparer) (cols : List String) : Except String (List String) :=
  match s.mask with
  | none => .error typeErrMsg
  | some m =>
      if m.length = cols.length then
        .ok (cols ++ ((s.powers.filter (fun p => p ≠ PElem.pow 1)).map pstr).flatMap
          (fun pre => (maskFilter m cols).map (fun c => pre ++ "_" ++ c)))
      else .error maskErrMsg

/-- The output of the naming routine as claim C1 words it: prefixed names
only for the integer powers other than 1, in configuration order.  This
definition follows the claim's words, for comparison with
`expand_columns_names_list` above. -/
def claimNamesIntOnly (s : Preparer) (cols : List String) : List String :=
  match s.mask with
  | none => cols
  | some m =>
      cols ++ ((s.powers.filterMap isIntPow).map (fun p => toString p)).flatMap
        (fun pre => (maskFilter m cols).map (fun c => pre ++ "_" ++ c))

/-- An arbitrary concrete instantiation of the abstract transcendental
approximations, used by the concrete witnesses below. -/
def someFns : TransFns :=
  { logA := fun q => q, expA := fun q => q, sqrtA := fun q => q }

/-- Success test for `Except` (no claim below depends on the error payload
when stating that an operation did not fail). -/
def isOkE {ε α : Type} : Except ε α → Bool
  | .ok _ => true
  | .error _ => false


/-- The pairwise-product pieces as numpy produces them: one width-1 matrix
per pair (i, j) with j <= i (a derived description, used in proofs). -/
def permPieces (x : Mat) : List Mat :=
  (List.range x.length).flatMap (fun i =>
    (List.range (i + 1)).map (fun j => [List.zipWith fmul (x.getD i []) (x.getD j [])]))

theorem qadd_eq (a b : ℚ) : qadd a b = a + b := by
  have ha : (a.den : ℤ) ≠ 0 := by exact_mod_cast a.den_nz
  have hb : (b.den : ℤ) ≠ 0 := by exact_mod_cast b.den_nz
  conv_rhs => rw [← Rat.num_divInt_den a, ← Rat.num_divInt_den b]
  rw [Rat.divInt_add_divInt _ _ ha hb, qadd, Rat.mkRat_eq_divInt]
  push_cast
  ring_nf

theorem qmul_eq (a b : ℚ) : qmul a b = a * b := by
  have ha : (a.den : ℤ) ≠ 0 := by exact_mod_cast a.den_nz
  have hb : (b.den : ℤ) ≠ 0 := by exact_mod_cast b.den_nz
  conv_rhs => rw [← Rat.num_divInt_den a, ← Rat.num_divInt_den b]
  rw [Rat.divInt_mul_divInt _ _ ha hb, qmul, Rat.mkRat_eq_divInt]
  push_cast
  ring_nf

theorem qneg_eq (a : ℚ) : qneg a = -a := by
  conv_rhs => rw [← Rat.num_divInt_den a]
  rw [qneg, Rat.mkRat_eq_divInt, Rat.neg_divInt]

theorem qinv_eq (a : ℚ) : qinv a = a⁻¹ := by
  rw [Rat.inv_def', qinv]
  rcases lt_trichotomy a.num 0 with h | h | h
  · rw [if_pos h, Rat.mkRat_eq_divInt]
    rw [Int.ofNat_natAbs_of_nonpos (le_of_lt h)]
    rw [Rat.divInt_neg, neg_neg]
  · rw [if_neg (by omega), Rat.mkRat_eq_divInt, h]
    rw [Int.natAbs_zero]
    norm_num
  · rw [if_neg (by omega), Rat.mkRat_eq_divInt, Int.natAbs_of_nonneg (le_of_lt h)]

theorem qdiv_eq (a b : ℚ) : qdiv a b = a / b := by
  rw [qdiv, qmul_eq, qinv_eq, div_eq_mul_inv]

theorem getD_map {α β : Type} (f : α → β) (l : List α) (i : ℕ) (d : α) (e : β)
    (hi : i < l.length) : (l.map f).getD i e = f (l.getD i d) := by
  induction l generalizing i with
  | nil => simp at hi
  | cons a t ih =>
      cases i with
      | zero => rfl
      | succ n =>
          simp only [List.map_cons, List.getD_cons_succ]
          exact ih n (by simpa using hi)

theorem getD_zipWith {α β γ : Type} (f : α → β → γ) (l1 : List α) (l2 : List β)
    (i : ℕ) (d1 : α) (d2 : β) (e : γ) (h1 : i < l1.length) (h2 : i < l2.length) :
    (List.zipWith f l1 l2).getD i e = f (l1.getD i d1) (l2.getD i d2) := by
  induction l1 generalizing l2 i with
  | nil => simp at h1
  | cons a t ih =>
      cases l2 with
      | nil => simp at h2
      | cons b u =>
          cases i with
          | zero => rfl
          | succ n =>
              simp only [List.zipWith_cons_cons, List.getD_cons_succ]
              exact ih u n (by simpa using h1) (by simpa using h2)

theorem mem_zipWith {α β γ : Type} {f : α → β → γ} {l1 : List α} {l2 : List β} {y : γ}
    (hy : y ∈ List.zipWith f l1 l2) : ∃ a b, a ∈ l1 ∧ b ∈ l2 ∧ y = f a b := by
  induction l1 generalizing l2 with
  | nil => simp at hy
  | cons a t ih =>
      cases l2 with
      | nil => simp at hy
      | cons b u =>
          simp only [List.zipWith_cons_cons, List.mem_cons] at hy
          rcases hy with h | h
          · exact ⟨a, b, List.mem_cons_self _ _, List.mem_cons_self _ _, h⟩
          · obtain ⟨a2, b2, ha2, hb2, hyeq⟩ := ih h
            exact ⟨a2, b2, List.mem_cons_of_mem _ ha2, List.mem_cons_of_mem _ hb2, hyeq⟩

theorem maskFilter_nil {α : Type} (m : List Bool) : maskFilter m ([] : List α) = [] := by
  cases m <;> rfl

theorem maskFilter_cons {α : Type} (b : Bool) (m : List Bool) (a : α) (l : List α) :
    maskFilter (b :: m) (a :: l) = (if b then [a] else []) ++ maskFilter m l := by
  cases b <;> simp [maskFilter]

theorem maskFilter_mem {α : Type} {m : List Bool} {l : List α} {y : α}
    (hy : y ∈ maskFilter m l) : y ∈ l := by
  unfold maskFilter at hy
  obtain ⟨p, hp, rfl⟩ := List.mem_map.mp hy
  exact (List.of_mem_zip (List.mem_of_mem_filter hp)).1

theorem maskFilter_length {α : Type} {m : List Bool} {l : List α}
    (h : l.length = m.length) : (maskFilter m l).length = m.count true := by
  induction m generalizing l with
  | nil => cases l <;> simp [maskFilter] at h ⊢
  | cons b t ih =>
      cases l with
      | nil => simp at h
      | cons a u =>
          rw [maskFilter_cons]
          have hu : u.length = t.length := by simpa using h
          cases b <;> simp [List.count_cons, ih hu]

theorem maskFilter_eq_idx {α : Type} (m : List Bool) (l : List α) (d : α)
    (h : l.length = m.length) :
    maskFilter m l
      = ((List.range m.length).filter (fun c => m.getD c false)).map (fun c => l.getD c d) := by
  induction m generalizing l with
  | nil => cases l <;> simp [maskFilter] at h ⊢
  | cons b t ih =>
      cases l with
      | nil => simp at h
      | cons a u =>
          have hu : u.length = t.length := by simpa using h
          rw [maskFilter_cons, List.length_cons, List.range_succ_eq_map]
          rw [List.filter_cons, List.filter_map]
          have hcomp : ((fun c => (b :: t).getD c false) ∘ Nat.succ) = (fun c => t.getD c false) := by
            funext c
            simp
          have h2 : ((fun c => (a :: u).getD c d) ∘ Nat.succ) = fun c => u.getD c d := by
            funext c
            simp
          rw [hcomp]
          cases b <;> simp [List.map_map, h2, ih u hu]

theorem idxFilter_length (m : List Bool) :
    ((List.range m.length).filter (fun c => m.getD c false)).length = m.count true := by
  have h := maskFilter_eq_idx m (List.range m.length) 0 (by simp)
  have h2 := maskFilter_length (l := List.range m.length) (m := m) (by simp)
  rw [h] at h2
  simpa using h2

theorem foldl_fadd_replicate (k : ℕ) (a q : ℚ) :
    List.foldl fadd (F.fin a) (List.replicate k (F.fin q)) = F.fin (a + k * q) := by
  induction k generalizing a with
  | zero => simp
  | succ n ih =>
      rw [List.replicate_succ, List.foldl_cons]
      show List.foldl fadd (F.fin (qadd a q)) _ = _
      rw [qadd_eq, ih (a + q)]
      congr 1
      push_cast
      ring

theorem colMean_replicate (k : ℕ) (q : ℚ) (hk : k ≠ 0) :
    colMean (List.replicate k (F.fin q)) = F.fin q := by
  have hk2 : ((k : ℚ)) ≠ 0 := by exact_mod_cast hk
  unfold colMean fsum
  rw [foldl_fadd_replicate, List.length_replicate]
  simp only [fdiv]
  rw [if_neg hk2, qdiv_eq]
  congr 1
  field_simp

theorem fsub_self_fin (q : ℚ) : fsub (F.fin q) (F.fin q) = F.fin 0 := by
  show fadd (F.fin q) (F.fin (qneg q)) = F.fin 0
  rw [qneg_eq]
  show F.fin (qadd q (-q)) = F.fin 0
  rw [qadd_eq]
  simp

theorem fmul_zero_zero : fmul (F.fin 0) (F.fin 0) = F.fin 0 := by
  show F.fin (qmul 0 0) = F.fin 0
  rw [qmul_eq]
  simp

theorem colVar_replicate (k : ℕ) (q : ℚ) (hk : k ≠ 0) :
    colVar (List.replicate k (F.fin q)) = F.fin 0 := by
  unfold colVar
  rw [colMean_replicate k q hk, List.map_replicate, fsub_self_fin, fmul_zero_zero,
    colMean_replicate k 0 hk]

theorem flatten_map_singleton {α β : Type} (f : α → β) (l : List α) :
    (l.map (fun a => [f a])).flatten = l.map f := by
  induction l with
  | nil => rfl
  | cons a t ih => simp [ih]

theorem flatten_flatMap {α β : Type} (g : α → List (List β)) (l : List α) :
    (l.flatMap g).flatten = l.flatMap (fun a => (g a).flatten) := by
  induction l with
  | nil => rfl
  | cons a t ih => simp [List.flatMap_cons, ih]

theorem allSame_of_all {l : List ℕ} {r : ℕ} (h : ∀ n ∈ l, n = r) : allSame l = true := by
  cases l with
  | nil => rfl
  | cons a t =>
      unfold allSame
      rw [List.all_eq_true]
      intro b hb
      have hb2 := h b (List.mem_cons_of_mem _ hb)
      have ha := h a (List.mem_cons_self _ _)
      simp [hb2, ha]

theorem hstack2_ok {ms : List Mat} {r : ℕ} (h : ∀ mat ∈ ms, ColsLen r mat) :
    hstack2 ms = .ok ms.flatten := by
  unfold hstack2
  rw [if_pos]
  apply allSame_of_all
  intro n hn
  obtain ⟨mat, hmat, rfl⟩ := List.mem_map.mp hn
  have hmem := List.mem_of_mem_filter hmat
  have hne : ¬mat.isEmpty := by
    have := (List.mem_filter.mp hmat).2
    simpa using this
  cases mat with
  | nil => simp at hne
  | cons c t =>
      show (c.length) = r
      exact h _ hmem c (List.mem_cons_self _ _)

theorem allD2_map (ms : List Mat) : allD2 (ms.map NdArr.d2) = some ms := by
  induction ms with
  | nil => rfl
  | cons a t ih => simp [allD2, ih]

theorem allD3_mapSingleton (ts : List Mat) :
    allD3 (ts.map (fun t => NdArr.d3 [t])) = some (ts.map (fun t => [t])) := by
  induction ts with
  | nil => rfl
  | cons a t ih => simp [allD3, ih]

theorem allD2_none {l : List NdArr} {t : Mat3} (h : NdArr.d3 t ∈ l) : allD2 l = none := by
  induction l with
  | nil => simp at h
  | cons a u ih =>
      rcases List.mem_cons.mp h with h1 | h1
      · rw [← h1]
        rfl
      · cases a with
        | d2 m => simp [allD2, ih h1]
        | d3 s => rfl

theorem allD3_none {l : List NdArr} {m : Mat} (h : NdArr.d2 m ∈ l) : allD3 l = none := by
  induction l with
  | nil => simp at h
  | cons a u ih =>
      rcases List.mem_cons.mp h with h1 | h1
      · rw [← h1]
        rfl
      · cases a with
        | d3 t => simp [allD3, ih h1]
        | d2 s => rfl

theorem finishPieces_d2 {ms : List Mat} {r : ℕ} (hne : ms ≠ [])
    (h : ∀ mat ∈ ms, ColsLen r mat) :
    finishPieces (ms.map NdArr.d2) = .ok (.d2 ms.flatten) := by
  cases ms with
  | nil => exact absurd rfl hne
  | cons a t =>
      cases t with
      | nil => simp [finishPieces]
      | cons b u =>
          show npConcat _ = _
          unfold npConcat
          rw [allD2_map]
          show Except.map NdArr.d2 (hstack2 (a :: b :: u)) = _
          rw [hstack2_ok h]
          rfl

theorem nrowsOf_cmap (f : F → F) (x : Mat) : nrowsOf (cmap f x) = nrowsOf x := by
  cases x with
  | nil => rfl
  | cons c t => simp [cmap, nrowsOf]

theorem length_cmap (f : F → F) (x : Mat) : (cmap f x).length = x.length := by
  simp [cmap]

theorem colsLen_cmap {x : Mat} {r : ℕ} (f : F → F) (h : ColsLen r x) :
    ColsLen r (cmap f x) := by
  intro col hcol
  obtain ⟨c, hc, rfl⟩ := List.mem_map.mp hcol
  simp [h c hc]

theorem colsLen_maskFilter {x : Mat} {r : ℕ} (m : List Bool) (h : ColsLen r x) :
    ColsLen r (maskFilter m x) := by
  intro col hcol
  exact h col (maskFilter_mem hcol)

theorem finishPieces_d3 {ts : List Mat} {R C : ℕ} (hne : ts ≠ [])
    (h : ∀ mat ∈ ts, nrowsOf mat = R ∧ mat.length = C) :
    finishPieces (ts.map (fun t => NdArr.d3 [t])) = .ok (.d3 ts) := by
  cases ts with
  | nil => exact absurd rfl hne
  | cons a t =>
      cases t with
      | nil => simp [finishPieces]
      | cons b u =>
          have hmem : NdArr.d3 [a] ∈ (a :: b :: u).map (fun t2 => NdArr.d3 [t2]) := by simp
          have hcheck : (((b :: u).map (fun t2 => [t2])).all
              (fun t2 => decide (dims3Of t2 = dims3Of [a]))) = true := by
            rw [List.all_eq_true]
            intro y hy
            obtain ⟨t2, ht2, rfl⟩ := List.mem_map.mp hy
            have h1 := h a (by simp)
            have h2 := h t2 (List.mem_cons_of_mem _ ht2)
            apply decide_eq_true
            show (nrowsOf t2, t2.length) = (nrowsOf a, a.length)
            rw [h1.1, h1.2, h2.1, h2.2]
          show npConcat ((a :: b :: u).map (fun t2 => NdArr.d3 [t2]))
              = Except.ok (NdArr.d3 (a :: b :: u))
          unfold npConcat
          rw [allD2_none hmem, allD3_mapSingleton]
          show Except.map NdArr.d3
              (if (((b :: u).map (fun t2 => [t2])).all
                  (fun t2 => decide (dims3Of t2 = dims3Of [a]))) = true then
                Except.ok (([a] :: (b :: u).map (fun t2 => [t2])).flatten)
              else Except.error rowsErrMsg)
            = Except.ok (NdArr.d3 (a :: b :: u))
          rw [if_pos hcheck]
          show Except.ok (NdArr.d3 (([a] :: (b :: u).map (fun t2 => [t2])).flatten))
            = Except.ok (NdArr.d3 (a :: b :: u))
          rw [List.flatten_cons, flatten_map_singleton]
          simp

theorem sum_range_add_one (n : ℕ) : (((List.range n).map (fun i => i + 1)).sum) = n * (n + 1) / 2 := by
  have h : (((List.range n).map (fun i => i + 1)).sum) * 2 = n * (n + 1) := by
    induction n with
    | zero => rfl
    | succ k ih =>
        rw [List.range_succ, List.map_append, List.sum_append]
        simp only [List.map_cons, List.map_nil, List.sum_cons, List.sum_nil]
        rw [Nat.add_mul, ih]
        ring
  omega

theorem emap_d2 (f : F → F) (x : Mat) : emap f (.d2 x) = .d2 (cmap f x) := rfl

theorem getD_mem {α : Type} {l : List α} {n : ℕ} (d : α) (h : n < l.length) :
    l.getD n d ∈ l := by
  induction l generalizing n with
  | nil => simp at h
  | cons a t ih =>
      cases n with
      | zero => simp
      | succ k =>
          simp only [List.getD_cons_succ]
          exact List.mem_cons_of_mem _ (ih (by simpa using h))

theorem permPieces_flatten (x : Mat) : (permPieces x).flatten = permSeg x := by
  unfold permPieces permSeg
  rw [flatten_flatMap]
  congr 1
  funext i
  rw [flatten_map_singleton]

theorem finish_eq (fns : TransFns) (s : Preparer) (x nbf : Mat) (r : ℕ)
    (tailM : List Mat) (tailFlat : Mat)
    (hflat : tailM.flatten = tailFlat)
    (hrx : ColsLen r x) (hrnbf : ColsLen r nbf)
    (htailr : ∀ mat ∈ tailM, ColsLen r mat)
    (hne2 : PElem.pow 1 ∈ s.powers ∨ (∃ p, PElem.pow p ∈ s.powers ∧ p ≠ 1)
        ∨ (PElem.perm ∈ s.powers ∧ x ≠ []) ∨ PElem.log ∈ s.powers ∨ tailM ≠ []) :
    finishPieces ((if PElem.pow 1 ∈ s.powers then [NdArr.d2 x] else [])
      ++ (s.powers.filterMap isIntPow).map (fun p => emap (fun v => fpow v p) (NdArr.d2 nbf))
      ++ (if PElem.perm ∈ s.powers then
            (List.range x.length).flatMap (fun i =>
              (List.range (i + 1)).map (fun j =>
                NdArr.d2 [List.zipWith fmul (x.getD i []) (x.getD j [])]))
          else [])
      ++ (if PElem.log ∈ s.powers then
            [emap (fun v => flog fns (fadd v (F.fin 1))) (NdArr.d2 nbf)]
          else [])
      ++ tailM.map NdArr.d2)
    = .ok (.d2 (idSeg s x ++ (powSegs s nbf).flatten
        ++ (if PElem.perm ∈ s.powers then permSeg x else [])
        ++ (if PElem.log ∈ s.powers then logSeg fns nbf else [])
        ++ tailFlat)) := by
  have hmap : (if PElem.pow 1 ∈ s.powers then [NdArr.d2 x] else [])
      ++ (s.powers.filterMap isIntPow).map (fun p => emap (fun v => fpow v p) (NdArr.d2 nbf))
      ++ (if PElem.perm ∈ s.powers then
            (List.range x.length).flatMap (fun i =>
              (List.range (i + 1)).map (fun j =>
                NdArr.d2 [List.zipWith fmul (x.getD i []) (x.getD j [])]))
          else [])
      ++ (if PElem.log ∈ s.powers then
            [emap (fun v => flog fns (fadd v (F.fin 1))) (NdArr.d2 nbf)]
          else [])
      ++ tailM.map NdArr.d2
      = ((if PElem.pow 1 ∈ s.powers then [x] else [])
        ++ powSegs s nbf
        ++ (if PElem.perm ∈ s.powers then permPieces x else [])
        ++ (if PElem.log ∈ s.powers then [logSeg fns nbf] else [])
        ++ tailM).map NdArr.d2 := by
    simp only [List.map_append, apply_ite (List.map NdArr.d2), List.map_map, powSegs,
      permPieces, List.map_flatMap, List.map_cons, List.map_nil, logSeg, emap_d2,
      Function.comp_def]
  rw [hmap]
  have hne3 : ((if PElem.pow 1 ∈ s.powers then [x] else [])
      ++ powSegs s nbf
      ++ (if PElem.perm ∈ s.powers then permPieces x else [])
      ++ (if PElem.log ∈ s.powers then [logSeg fns nbf] else [])
      ++ tailM) ≠ [] := by
    intro hnil
    simp only [List.append_eq_nil] at hnil
    obtain ⟨⟨⟨⟨h1, h2⟩, h3⟩, h4⟩, h5⟩ := hnil
    rcases hne2 with hp | ⟨p, hp, hp1⟩ | ⟨hp, hx⟩ | hp | hp
    · rw [if_pos hp] at h1
      simp at h1
    · have hmem : cmap (fun v => fpow v p) nbf ∈ powSegs s nbf := by
        apply List.mem_map_of_mem
        apply List.mem_filterMap.mpr
        exact ⟨PElem.pow p, hp, by simp [isIntPow, hp1]⟩
      exact List.ne_nil_of_mem hmem h2
    · rw [if_pos hp] at h3
      have hmem : [List.zipWith fmul (x.getD 0 []) (x.getD 0 [])] ∈ permPieces x := by
        apply List.mem_flatMap.mpr
        refine ⟨0, ?_, ?_⟩
        · simp only [List.mem_range]
          exact List.length_pos.mpr hx
        · simp
      exact List.ne_nil_of_mem hmem h3
    · rw [if_pos hp] at h4
      simp at h4
    · exact hp h5
  have hcols : ∀ mat ∈ ((if PElem.pow 1 ∈ s.powers then [x] else [])
      ++ powSegs s nbf
      ++ (if PElem.perm ∈ s.powers then permPieces x else [])
      ++ (if PElem.log ∈ s.powers then [logSeg fns nbf] else [])
      ++ tailM), ColsLen r mat := by
    intro mat hmat
    simp only [List.mem_append] at hmat
    rcases hmat with ((((h | h) | h) | h) | h)
    · by_cases hc : PElem.pow 1 ∈ s.powers
      · rw [if_pos hc] at h
        simp only [List.mem_singleton] at h
        subst h
        exact hrx
      · rw [if_neg hc] at h
        simp at h
    · obtain ⟨p, hp, rfl⟩ := List.mem_map.mp h
      exact colsLen_cmap _ hrnbf
    · by_cases hc : PElem.perm ∈ s.powers
      · rw [if_pos hc] at h
        obtain ⟨i, hi, h2⟩ := List.mem_flatMap.mp h
        obtain ⟨j, hj, rfl⟩ := List.mem_map.mp h2
        intro col hcol
        simp only [List.mem_singleton] at hcol
        subst hcol
        rw [List.length_zipWith]
        have hi2 : i < x.length := List.mem_range.mp hi
        have hj2 : j < x.length := lt_of_lt_of_le (List.mem_range.mp hj) hi2
        rw [hrx _ (getD_mem [] hi2), hrx _ (getD_mem [] hj2)]
        exact min_self r
      · rw [if_neg hc] at h
        simp at h
    · by_cases hc : PElem.log ∈ s.powers
      · rw [if_pos hc] at h
        simp only [List.mem_singleton] at h
        subst h
        exact colsLen_cmap _ hrnbf
      · rw [if_neg hc] at h
        simp at h
    · exact htailr mat h
  rw [finishPieces_d2 hne3 hcols]
  congr 2
  simp only [List.flatten_append, apply_ite List.flatten, permPieces_flatten,
    List.flatten_cons, List.flatten_nil, List.append_nil, hflat, idSeg]

theorem apply_powers_fitted (fns : TransFns) (s : Preparer) (x : Mat) (m : List Bool)
    (sds : List F) (r : ℕ)
    (hm : s.mask = some m)
    (hlen : m.length = x.length)
    (hr : ColsLen r x)
    (hexp : PElem.exp ∈ s.powers → s.origStd = some sds ∧ sds.length = (maskFilter m x).length)
    (hne : PElem.pow 1 ∈ s.powers ∨ (∃ p, PElem.pow p ∈ s.powers ∧ p ≠ 1)
        ∨ (PElem.perm ∈ s.powers ∧ x ≠ []) ∨ PElem.log ∈ s.powers ∨ PElem.exp ∈ s.powers) :
    apply_powers fns s x = .ok (.d2 (
      idSeg s x ++ (powSegs s (maskFilter m x)).flatten
      ++ (if PElem.perm ∈ s.powers then permSeg x else [])
      ++ (if PElem.log ∈ s.powers then logSeg fns (maskFilter m x) else [])
      ++ (if PElem.exp ∈ s.powers then expSeg fns (maskFilter m x) sds else []))) := by
  have hnbf : maskSelect s.mask x = .ok (.d2 (maskFilter m x)) := by
    rw [hm]
    show Except.map NdArr.d2 (maskSel2 m x) = _
    unfold maskSel2
    rw [if_pos hlen]
    rfl
  unfold apply_powers
  rw [hnbf]
  simp only [Bind.bind, Except.bind]
  by_cases hE : PElem.exp ∈ s.powers
  · obtain ⟨h1, h2⟩ := hexp hE
    rw [if_pos hE, if_pos hE, h1]
    have hdiv : edivStd (NdArr.d2 (maskFilter m x)) (some sds)
        = .ok (.d2 (List.zipWith (fun col sv => col.map (fun v => fdiv v sv))
            (maskFilter m x) sds)) := by
      show (if (maskFilter m x).length = sds.length then
          Except.ok (NdArr.d2 (List.zipWith (fun col sv => col.map (fun v => fdiv v sv))
            (maskFilter m x) sds))
        else Except.error bcastErrMsg) = _
      rw [if_pos h2.symm]
    rw [hdiv]
    exact finish_eq fns s x (maskFilter m x) r
      [expSeg fns (maskFilter m x) sds] (expSeg fns (maskFilter m x) sds)
      (by simp)
      hr (colsLen_maskFilter m hr)
      (by
        intro mat hmat
        simp only [List.mem_singleton] at hmat
        subst hmat
        apply colsLen_cmap
        intro col hcol
        obtain ⟨a, b, ha, hb, rfl⟩ := mem_zipWith hcol
        simp [colsLen_maskFilter m hr a ha])
      (Or.inr (Or.inr (Or.inr (Or.inr (by simp)))))
  · rw [if_neg hE, if_neg hE]
    exact finish_eq fns s x (maskFilter m x) r [] []
      rfl
      hr (colsLen_maskFilter m hr)
      (by intro mat hmat; simp at hmat)
      (by
        rcases hne with hp | hp | hp | hp | hp
        · exact Or.inl hp
        · exact Or.inr (Or.inl hp)
        · exact Or.inr (Or.inr (Or.inl hp))
        · exact Or.inr (Or.inr (Or.inr (Or.inl hp)))
        · exact absurd hp hE)

theorem apply_powers_stats_indep (fns : TransFns) (p : List PElem) (a : Option (List Bool))
    (b : Option (List F)) (c c2 : Option (List F × List F)) (x : Mat) :
    apply_powers fns ⟨p, a, b, c⟩ x = apply_powers fns ⟨p, a, b, c2⟩ x := rfl

theorem maskSel2_computeMask (x : Mat) :
    maskSel2 (computeMask x) x = .ok (maskFilter (computeMask x) x) := by
  unfold maskSel2
  rw [if_pos (by simp [computeMask])]

theorem fitInner_ok {fns : TransFns} {s : Preparer} {x : Mat} {t : Preparer} {a : NdArr}
    (h : fitInner fns s x = .ok (t, a)) :
    ∃ st, t = ⟨s.powers, some (computeMask x),
        some (origStdOf fns (maskFilter (computeMask x) x)), some st⟩
      ∧ apply_powers fns t x = .ok a
      ∧ scalerFit fns a = .ok st := by
  unfold fitInner at h
  simp only [maskSel2_computeMask, Bind.bind, Except.bind] at h
  cases happ : (apply_powers fns
      { s with
        mask := some (computeMask x)
        origStd := some (origStdOf fns (maskFilter (computeMask x) x)) } x) with
  | error e =>
      rw [happ] at h
      simp only [pure, Except.pure] at h
      exact absurd h (by simp)
  | ok a2 =>
      rw [happ] at h
      simp only [pure, Except.pure] at h
      cases hsf : scalerFit fns a2 with
      | error e =>
          rw [hsf] at h
          simp only [pure, Except.pure] at h
          exact absurd h (by simp)
      | ok st =>
          rw [hsf] at h
          simp only [pure, Except.pure, Except.ok.injEq, Prod.mk.injEq] at h
          obtain ⟨ht, ha⟩ := h
          subst ha
          refine ⟨st, ?_, ?_, hsf⟩
          · rw [← ht]
          · rw [← ht]
            rw [show apply_powers fns (⟨s.powers, some (computeMask x),
                some (origStdOf fns (maskFilter (computeMask x) x)), some st⟩ : Preparer) x
              = apply_powers fns
                { s with
                  mask := some (computeMask x)
                  origStd := some (origStdOf fns (maskFilter (computeMask x) x)) } x from rfl]
            exact happ

/-- C2: for every configuration, every state and every input matrix,
`fit_transform` returns exactly the matrix that `fit` followed by
`transform` on the same input returns (and the two agree on errors too). -/
theorem claim_C2 (fns : TransFns) (s : Preparer) (x : Mat) :
    (fit_transform fns s x).map Prod.snd
      = (fit fns s x).bind (fun t => transform fns t x) := by
  unfold fit_transform fit transform
  cases h : fitInner fns s x with
  | error e => simp [Bind.bind, Except.bind, Except.map]
  | ok r =>
      obtain ⟨t, a⟩ := r
      obtain ⟨st, ht, happ, hsf⟩ := fitInner_ok h
      simp only [Bind.bind, Except.bind, Except.map, happ]
      cases h2 : scalerTransform t.scalerStats a with
      | error e => simp
      | ok y => simp [pure, Except.pure]

/-- C3: with the identity-only default configuration `[1]`, the expansion
returns the input matrix unchanged - same values, same column order, no
columns added or removed - both on a fresh instance (mask unset) and on a
fitted instance whose learned mask matches the input's column count. -/
theorem claim_C3 (fns : TransFns) (s : Preparer) (x : Mat)
    (hp : s.powers = [PElem.pow 1])
    (hm : s.mask = none ∨ ∃ m, s.mask = some m ∧ m.length = x.length) :
    apply_powers fns s x = .ok (.d2 x) := by
  have hnbf : ∃ v, maskSelect s.mask x = .ok v := by
    rcases hm with h | ⟨m, h, hlen⟩
    · rw [h]
      exact ⟨_, rfl⟩
    · rw [h]
      show ∃ v, Except.map NdArr.d2 (maskSel2 m x) = .ok v
      unfold maskSel2
      rw [if_pos hlen]
      exact ⟨_, rfl⟩
  obtain ⟨v, hv⟩ := hnbf
  unfold apply_powers
  rw [hv, hp]
  simp [Bind.bind, Except.bind, pure, Except.pure, isIntPow, finishPieces, List.filterMap_cons]

/-- C9: on a fitted instance, `transform` with a matrix whose column count
differs from the fitted one fails with the boolean-mask dimension-mismatch
error - it never returns a truncated or padded result. -/
theorem claim_C9 (fns : TransFns) (s : Preparer) (x : Mat) (m : List Bool)
    (hm : s.mask = some m) (hx : x.length ≠ m.length) :
    transform fns s x = .error maskErrMsg := by
  have hsel : maskSelect (some m) x = .error maskErrMsg := by
    show Except.map NdArr.d2 (maskSel2 m x) = _
    unfold maskSel2
    rw [if_neg (fun hh => hx hh.symm)]
    rfl
  unfold transform apply_powers
  rw [hm, hsel]
  simp [Bind.bind, Except.bind]

theorem fitInner_congr (fns : TransFns) (s1 s2 : Preparer) (x : Mat)
    (hp : s1.powers = s2.powers) :
    fitInner fns s1 x = fitInner fns s2 x := by
  obtain ⟨p1, a1, b1, c1⟩ := s1
  obtain ⟨p2, a2, b2, c2⟩ := s2
  have hp2 : p1 = p2 := hp
  subst hp2
  rfl

/-- C10: re-fitting fully resets the learned state: fitting any instance
(whatever fit/transform history produced its current mask, original-std
vector and scaler statistics) on a matrix Y gives exactly the state a
freshly constructed instance with the same configuration would reach by
fitting once on Y, so every subsequent transform and column-naming result
coincides as well. -/
theorem claim_C10 (fns : TransFns) (ps : List PElem) (s : Preparer) (Y z : Mat)
    (cols : List String)
    (hpow : s.powers = (mkPreparer ps).powers) :
    fit fns s Y = fit fns (mkPreparer ps) Y
    ∧ (fit fns s Y).bind (fun t => transform fns t z)
        = (fit fns (mkPreparer ps) Y).bind (fun t => transform fns t z)
    ∧ (fit fns s Y).bind (fun t => expand_columns_names_list t cols)
        = (fit fns (mkPreparer ps) Y).bind (fun t => expand_columns_names_list t cols) := by
  have h := fitInner_congr fns s (mkPreparer ps) Y hpow
  have hfit : fit fns s Y = fit fns (mkPreparer ps) Y := by
    unfold fit
    rw [h]
  exact ⟨hfit, by rw [hfit], by rw [hfit]⟩

theorem getD_zip {α β : Type} (l1 : List α) (l2 : List β) (c : ℕ) (d1 : α) (d2 : β)
    (h1 : c < l1.length) (h2 : c < l2.length) :
    (l1.zip l2).getD c (d1, d2) = (l1.getD c d1, l2.getD c d2) := by
  show (List.zipWith Prod.mk l1 l2).getD c (d1, d2) = _
  exact getD_zipWith Prod.mk l1 l2 c d1 d2 (d1, d2) h1 h2

/-- C4: a successful fit stores a mask with exactly one entry per input
column, the entry for column c being true iff that column holds more than
2 distinct values; and boolean-mask selection with the stored mask keeps
exactly the mask-true columns, in order - the columns the power, log and
exp branches operate on - and drops the mask-false ones. -/
theorem claim_C4 (fns : TransFns) (s : Preparer) (x : Mat) (t : Preparer)
    (c : ℕ) (y : Mat)
    (hfit : fit fns s x = .ok t)
    (hc : c < x.length)
    (hy : y.length = x.length) :
    t.mask = some (computeMask x)
    ∧ (computeMask x).length = x.length
    ∧ ((computeMask x).getD c false = true ↔ 2 < (x.getD c []).toFinset.card)
    ∧ maskSel2 (computeMask x) y
        = .ok (((List.range x.length).filter (fun i => (computeMask x).getD i false)).map
            (fun i => y.getD i [])) := by
  have hcl : (computeMask x).length = x.length := by simp [computeMask]
  have hmask : t.mask = some (computeMask x) := by
    unfold fit at hfit
    cases h : fitInner fns s x with
    | error e =>
        rw [h] at hfit
        exact absurd hfit (by simp [Except.map])
    | ok r =>
        rw [h] at hfit
        obtain ⟨rt, ra⟩ := r
        obtain ⟨st, hteq, _, _⟩ := fitInner_ok h
        simp only [Except.map, Except.ok.injEq] at hfit
        rw [← hfit, hteq]
  refine ⟨hmask, hcl, ?_, ?_⟩
  · show (x.map (fun col => decide (2 < col.dedup.length))).getD c false = true ↔ _
    rw [getD_map _ x c [] false hc, List.card_toFinset]
    simp
  · unfold maskSel2
    rw [if_pos (by rw [hcl, hy])]
    rw [maskFilter_eq_idx _ _ [] (by rw [hcl, hy]), hcl]

/-- C6: when a column of the expanded fitting matrix is constant (all
entries one finite value, so the learned standard deviation is zero),
`transform` on the fitting data does not fail - the zero scale is replaced
by 1 - and that column of the output is identically 0. -/
theorem claim_C6 (fns : TransFns) (s : Preparer) (x : Mat) (t : Preparer) (e : Mat)
    (c : ℕ) (q : ℚ)
    (hfit : fitInner fns s x = .ok (t, .d2 e))
    (hc : c < e.length)
    (hcol : e.getD c [] = List.replicate (e.getD c []).length (F.fin q))
    (hne : e.getD c [] ≠ []) :
    transform fns t x = .ok (stdResult fns e)
    ∧ (stdResult fns e).getD c [] = List.replicate (e.getD c []).length (F.fin 0) := by
  obtain ⟨st, hteq, happ, hsf⟩ := fitInner_ok hfit
  have hkpos : (e.getD c []).length ≠ 0 := fun h0 => hne (List.length_eq_zero.mp h0)
  have hst : st = fitStats fns e := by
    have hsf2 : (if nrowsOf e = 0 then (Except.error zeroSampErrMsg : Except String (List F × List F))
        else .ok (fitStats fns e)) = .ok st := hsf
    by_cases h0 : nrowsOf e = 0
    · rw [if_pos h0] at hsf2
      exact absurd hsf2 (by simp)
    · rw [if_neg h0] at hsf2
      simpa using hsf2.symm
  have hts : t.scalerStats = some (fitStats fns e) := by
    rw [hteq, ← hst]
  have htr : transform fns t x = .ok (stdResult fns e) := by
    unfold transform
    rw [happ]
    simp only [Bind.bind, Except.bind]
    rw [hts]
    show (if e.length = (fitStats fns e).1.length then
        Except.ok (List.zipWith (fun col p => col.map (fun v => fdiv (fsub v p.1) p.2))
          e ((fitStats fns e).1.zip (fitStats fns e).2))
      else Except.error nFeatErrMsg) = Except.ok (stdResult fns e)
    rw [if_pos (by simp [fitStats])]
    rfl
  refine ⟨htr, ?_⟩
  have hmean : (fitStats fns e).1.getD c F.nan = F.fin q := by
    show (e.map colMean).getD c F.nan = _
    rw [getD_map colMean e c [] F.nan hc, hcol, colMean_replicate _ _ hkpos]
  have hscale : (fitStats fns e).2.getD c F.nan = F.fin 1 := by
    show (e.map (fun col => handleZero (colStd fns col))).getD c F.nan = _
    rw [getD_map _ e c [] F.nan hc, hcol]
    unfold colStd
    rw [colVar_replicate _ _ hkpos]
    simp [fsqrt, handleZero]
  have hzip : ((fitStats fns e).1.zip (fitStats fns e).2).getD c (F.nan, F.nan)
      = (F.fin q, F.fin 1) := by
    rw [getD_zip _ _ c F.nan F.nan (by simp [fitStats]; omega) (by simp [fitStats]; omega)]
    rw [hmean, hscale]
  have hdiv01 : fdiv (F.fin 0) (F.fin 1) = F.fin 0 := by
    simp [fdiv, qdiv_eq]
  unfold stdResult
  rw [getD_zipWith _ e _ c [] (F.nan, F.nan) [] hc
    (by simp [List.length_zip, fitStats]; omega)]
  rw [hzip, hcol, List.map_replicate, fsub_self_fin, hdiv01]
  simp

theorem sum_map_const {α : Type} (l : List α) (f : α → ℕ) (k : ℕ)
    (h : ∀ a ∈ l, f a = k) : (l.map f).sum = l.length * k := by
  induction l with
  | nil => simp
  | cons a t ih =>
      simp only [List.map_cons, List.sum_cons, List.length_cons]
      rw [h a (List.mem_cons_self _ _), ih (fun b hb => h b (List.mem_cons_of_mem _ hb))]
      ring

theorem finishPieces_big {l : List NdArr} (h : 2 ≤ l.length) :
    finishPieces l = npConcat l := by
  cases l with
  | nil => simp at h
  | cons a t =>
      cases t with
      | nil => simp at h
      | cons b u => rfl

theorem two_le_length {α : Type} {l : List α} {a b : α}
    (ha : a ∈ l) (hb : b ∈ l) (hab : a ≠ b) : 2 ≤ l.length := by
  cases l with
  | nil => simp at ha
  | cons c t =>
      cases t with
      | nil =>
          simp only [List.mem_singleton] at ha hb
          exact absurd (ha.trans hb.symm) hab
      | cons d u => simp [Nat.succ_le_succ, Nat.le_add_left]

/-- C1 (amended): on a fitted instance, the naming routine returns the
original names followed by, for every configured element p other than the
integer 1 - integer powers and the perm/log/exp tokens alike, in
configuration order - the name of each mask-true column prefixed with
str(p) and an underscore; the appended block has one entry per (element,
non-boolean column) pair. -/
theorem claim_C1 (s : Preparer) (cols : List String) (m : List Bool)
    (hm : s.mask = some m) (hlen : cols.length = m.length) :
    expand_columns_names_list s cols
      = .ok (cols ++ ((s.powers.filter (fun p => p ≠ PElem.pow 1)).map pstr).flatMap
          (fun pre => (((List.range m.length).filter (fun c => m.getD c false)).map
            (fun c => cols.getD c "")).map (fun c2 => pre ++ "_" ++ c2)))
    ∧ (((s.powers.filter (fun p => p ≠ PElem.pow 1)).map pstr).flatMap
          (fun pre => (maskFilter m cols).map (fun c => pre ++ "_" ++ c))).length
        = (s.powers.filter (fun p => p ≠ PElem.pow 1)).length * (m.count true) := by
  have hsel : expand_columns_names_list s cols
      = .ok (cols ++ ((s.powers.filter (fun p => p ≠ PElem.pow 1)).map pstr).flatMap
          (fun pre => (maskFilter m cols).map (fun c => pre ++ "_" ++ c))) := by
    unfold expand_columns_names_list
    rw [hm]
    show (if m.length = cols.length then
        Except.ok (cols ++ ((s.powers.filter (fun p => p ≠ PElem.pow 1)).map pstr).flatMap
          (fun pre => (maskFilter m cols).map (fun c => pre ++ "_" ++ c)))
      else Except.error maskErrMsg) = _
    rw [if_pos hlen.symm]
  constructor
  · rw [hsel, maskFilter_eq_idx m cols "" hlen]
  · rw [List.length_flatMap]
    rw [sum_map_const _ _ (m.count true)
      (fun pre hpre => by
        simp only [Function.comp_apply]
        rw [List.length_map, maskFilter_length hlen])]
    rw [List.length_map]

/-- C5: when the pairwise-product token is configured (on a fitted
instance), the expansion succeeds and contains, right after the identity
and integer-power columns, the pairwise-product block: for every pair
(i, j) with j <= i < n, outer index ascending and inner index ascending,
the elementwise product of columns i and j of the original matrix (all
columns, boolean ones included); the block has exactly n*(n+1)/2 columns
and the block before it has (identity width) + (number of integer powers
other than 1) * (number of mask-true columns) columns. -/
theorem claim_C5 (fns : TransFns) (s : Preparer) (x : Mat) (m : List Bool)
    (sds : List F) (r : ℕ)
    (hm : s.mask = some m) (hlen : m.length = x.length)
    (hr : ColsLen r x) (hxne : x ≠ [])
    (hexp : PElem.exp ∈ s.powers → s.origStd = some sds ∧ sds.length = (maskFilter m x).length)
    (hperm : PElem.perm ∈ s.powers) :
    apply_powers fns s x = .ok (.d2 (
      idSeg s x ++ (powSegs s (maskFilter m x)).flatten
      ++ permSeg x
      ++ (if PElem.log ∈ s.powers then logSeg fns (maskFilter m x) else [])
      ++ (if PElem.exp ∈ s.powers then expSeg fns (maskFilter m x) sds else [])))
    ∧ (permSeg x).length = x.length * (x.length + 1) / 2
    ∧ (idSeg s x ++ (powSegs s (maskFilter m x)).flatten).length
        = (if PElem.pow 1 ∈ s.powers then x.length else 0)
          + (s.powers.filterMap isIntPow).length * (m.count true) := by
  refine ⟨?_, ?_, ?_⟩
  · have h := apply_powers_fitted fns s x m sds r hm hlen hr hexp
      (Or.inr (Or.inr (Or.inl ⟨hperm, hxne⟩)))
    rw [if_pos hperm] at h
    exact h
  · unfold permSeg
    rw [List.length_flatMap]
    have h2 : ((List.range x.length).map (List.length ∘ fun i =>
        (List.range (i + 1)).map (fun j =>
          List.zipWith fmul (x.getD i []) (x.getD j []))))
        = (List.range x.length).map (fun i => i + 1) := by
      apply List.map_congr_left
      intro i hi
      simp
    rw [h2, sum_range_add_one]
  · rw [List.length_append]
    congr 1
    · unfold idSeg
      split <;> simp
    · rw [List.length_flatten]
      unfold powSegs
      rw [List.map_map]
      rw [sum_map_const _ _ (m.count true)
        (fun p hp => by
          simp only [Function.comp_apply]
          rw [length_cmap, maskFilter_length hlen.symm])]

/-- C7 (amended): when the log token is configured (on a fitted instance)
the expansion does not fail: it appends log(col + 1) elementwise for every
mask-true column, and wherever a source entry is a finite value q <= -1
the corresponding appended entry is a non-finite sentinel (-inf at exactly
-1, NaN below), never an ordinary finite number. -/
theorem claim_C7 (fns : TransFns) (s : Preparer) (x : Mat) (m : List Bool)
    (sds : List F) (r : ℕ) (i j : ℕ) (q : ℚ)
    (hm : s.mask = some m) (hlen : m.length = x.length)
    (hr : ColsLen r x)
    (hexp : PElem.exp ∈ s.powers → s.origStd = some sds ∧ sds.length = (maskFilter m x).length)
    (hlog : PElem.log ∈ s.powers)
    (hq : ((maskFilter m x).getD i []).getD j F.nan = F.fin q)
    (hq1 : q ≤ -1) :
    apply_powers fns s x = .ok (.d2 (
      idSeg s x ++ (powSegs s (maskFilter m x)).flatten
      ++ (if PElem.perm ∈ s.powers then permSeg x else [])
      ++ logSeg fns (maskFilter m x)
      ++ (if PElem.exp ∈ s.powers then expSeg fns (maskFilter m x) sds else [])))
    ∧ ((logSeg fns (maskFilter m x)).getD i []).getD j F.nan
        = flog fns (fadd (F.fin q) (F.fin 1))
    ∧ (flog fns (fadd (F.fin q) (F.fin 1))).isFinite = false := by
  have hi : i < (maskFilter m x).length := by
    by_contra hcon
    push_neg at hcon
    rw [List.getD_eq_default _ _ hcon] at hq
    simp at hq
  have hj : j < ((maskFilter m x).getD i []).length := by
    by_contra hcon
    push_neg at hcon
    rw [List.getD_eq_default _ _ hcon] at hq
    simp at hq
  refine ⟨?_, ?_, ?_⟩
  · have h := apply_powers_fitted fns s x m sds r hm hlen hr hexp
      (Or.inr (Or.inr (Or.inr (Or.inl hlog))))
    rw [if_pos hlog] at h
    exact h
  · unfold logSeg cmap
    rw [getD_map _ _ i [] [] hi, getD_map _ _ j F.nan F.nan hj, hq]
  · show (flog fns (F.fin (qadd q 1))).isFinite = false
    rw [qadd_eq]
    rcases eq_or_lt_of_le (by linarith : q + 1 ≤ 0) with h | h
    · simp [flog, h, F.isFinite]
    · simp [flog, h.ne, not_lt.mpr h.le, F.isFinite]

theorem emap_d3one (f : F → F) (x : Mat) : emap f (.d3 [x]) = .d3 [cmap f x] := rfl

/-- C8 (amended): before fit (mask and original-std both unset), numpy
reads the `None` mask as `newaxis`, so the power/log/exp pieces become
3-D.  With the exp token the call fails with a type error (division by
`None`); otherwise, if an integer power other than 1 or the log token is
configured together with a 2-D piece (the identity marker, or the perm
token on a nonempty matrix), concatenation fails with the dimension
error; but with only integer powers other than 1 and/or the log token the
call does not fail at all - it returns a wrongly-shaped 3-D array. -/
theorem claim_C8 (fns : TransFns) (s : Preparer) (x : Mat)
    (hm : s.mask = none) (hstd : s.origStd = none) :
    (PElem.exp ∈ s.powers → apply_powers fns s x = .error typeErrMsg)
    ∧ (PElem.exp ∉ s.powers →
        ((∃ p, PElem.pow p ∈ s.powers ∧ p ≠ 1) ∨ PElem.log ∈ s.powers) →
        (PElem.pow 1 ∈ s.powers ∨ (PElem.perm ∈ s.powers ∧ x ≠ [])) →
        apply_powers fns s x = .error ndimErrMsg)
    ∧ (PElem.exp ∉ s.powers →
        ((∃ p, PElem.pow p ∈ s.powers ∧ p ≠ 1) ∨ PElem.log ∈ s.powers) →
        ¬(PElem.pow 1 ∈ s.powers ∨ (PElem.perm ∈ s.powers ∧ x ≠ [])) →
        apply_powers fns s x = .ok (.d3 (
          (s.powers.filterMap isIntPow).map (fun p => cmap (fun v => fpow v p) x)
          ++ (if PElem.log ∈ s.powers then
              [cmap (fun v => flog fns (fadd v (F.fin 1))) x] else [])))) := by
  have hsel : maskSelect s.mask x = .ok (.d3 [x]) := by
    rw [hm]
    rfl
  refine ⟨?_, ?_, ?_⟩
  · intro hE
    unfold apply_powers
    rw [hsel]
    simp only [Bind.bind, Except.bind]
    rw [if_pos hE, hstd]
    simp [edivStd]
  · intro hE htrig h2
    have happ : apply_powers fns s x = finishPieces
        ((if PElem.pow 1 ∈ s.powers then [NdArr.d2 x] else [])
          ++ (s.powers.filterMap isIntPow).map
              (fun p => emap (fun v => fpow v p) (NdArr.d3 [x]))
          ++ (if PElem.perm ∈ s.powers then
                (List.range x.length).flatMap (fun i =>
                  (List.range (i + 1)).map (fun j =>
                    NdArr.d2 [List.zipWith fmul (x.getD i []) (x.getD j [])]))
              else [])
          ++ (if PElem.log ∈ s.powers then
                [emap (fun v => flog fns (fadd v (F.fin 1))) (NdArr.d3 [x])]
              else [])
          ++ []) := by
      unfold apply_powers
      rw [hsel]
      simp only [Bind.bind, Except.bind]
      rw [if_neg hE]
      rfl
    have hd3 : ∃ t, NdArr.d3 t ∈
        ((if PElem.pow 1 ∈ s.powers then [NdArr.d2 x] else [])
          ++ (s.powers.filterMap isIntPow).map
              (fun p => emap (fun v => fpow v p) (NdArr.d3 [x]))
          ++ (if PElem.perm ∈ s.powers then
                (List.range x.length).flatMap (fun i =>
                  (List.range (i + 1)).map (fun j =>
                    NdArr.d2 [List.zipWith fmul (x.getD i []) (x.getD j [])]))
              else [])
          ++ (if PElem.log ∈ s.powers then
                [emap (fun v => flog fns (fadd v (F.fin 1))) (NdArr.d3 [x])]
              else [])
          ++ []) := by
      rcases htrig with ⟨p, hp, hp1⟩ | hp
      · have hpmem : p ∈ s.powers.filterMap isIntPow :=
          List.mem_filterMap.mpr ⟨.pow p, hp, by simp [isIntPow, hp1]⟩
        refine ⟨[cmap (fun v => fpow v p) x], ?_⟩
        simp only [List.mem_append]
        exact Or.inl (Or.inl (Or.inl (Or.inr (List.mem_map_of_mem _ hpmem))))
      · refine ⟨[cmap (fun v => flog fns (fadd v (F.fin 1))) x], ?_⟩
        simp only [List.mem_append]
        refine Or.inl (Or.inr ?_)
        rw [if_pos hp]
        exact List.mem_singleton.mpr rfl
    have hd2 : ∃ t, NdArr.d2 t ∈
        ((if PElem.pow 1 ∈ s.powers then [NdArr.d2 x] else [])
          ++ (s.powers.filterMap isIntPow).map
              (fun p => emap (fun v => fpow v p) (NdArr.d3 [x]))
          ++ (if PElem.perm ∈ s.powers then
                (List.range x.length).flatMap (fun i =>
                  (List.range (i + 1)).map (fun j =>
                    NdArr.d2 [List.zipWith fmul (x.getD i []) (x.getD j [])]))
              else [])
          ++ (if PElem.log ∈ s.powers then
                [emap (fun v => flog fns (fadd v (F.fin 1))) (NdArr.d3 [x])]
              else [])
          ++ []) := by
      rcases h2 with hp | ⟨hp, hx⟩
      · refine ⟨x, ?_⟩
        simp only [List.mem_append]
        refine Or.inl (Or.inl (Or.inl (Or.inl ?_)))
        rw [if_pos hp]
        exact List.mem_singleton.mpr rfl
      · refine ⟨[List.zipWith fmul (x.getD 0 []) (x.getD 0 [])], ?_⟩
        simp only [List.mem_append]
        refine Or.inl (Or.inl (Or.inr ?_))
        rw [if_pos hp]
        apply List.mem_flatMap.mpr
        refine ⟨0, ?_, by simp⟩
        simp only [List.mem_range]
        exact List.length_pos.mpr hx
    obtain ⟨t3, ht3⟩ := hd3
    obtain ⟨t2, ht2⟩ := hd2
    rw [happ, finishPieces_big (two_le_length ht2 ht3 (by simp))]
    unfold npConcat
    rw [allD2_none ht3, allD3_none ht2]
  · intro hE htrig h3
    push_neg at h3
    obtain ⟨hp1, hpx⟩ := h3
    have happ : apply_powers fns s x = finishPieces
        ((if PElem.pow 1 ∈ s.powers then [NdArr.d2 x] else [])
          ++ (s.powers.filterMap isIntPow).map
              (fun p => emap (fun v => fpow v p) (NdArr.d3 [x]))
          ++ (if PElem.perm ∈ s.powers then
                (List.range x.length).flatMap (fun i =>
                  (List.range (i + 1)).map (fun j =>
                    NdArr.d2 [List.zipWith fmul (x.getD i []) (x.getD j [])]))
              else [])
          ++ (if PElem.log ∈ s.powers then
                [emap (fun v => flog fns (fadd v (F.fin 1))) (NdArr.d3 [x])]
              else [])
          ++ []) := by
      unfold apply_powers
      rw [hsel]
      simp only [Bind.bind, Except.bind]
      rw [if_neg hE]
      rfl
    have hperm0 : (if PElem.perm ∈ s.powers then
        (List.range x.length).flatMap (fun i =>
          (List.range (i + 1)).map (fun j =>
            NdArr.d2 [List.zipWith fmul (x.getD i []) (x.getD j [])]))
        else []) = ([] : List NdArr) := by
      by_cases hp : PElem.perm ∈ s.powers
      · rw [if_pos hp]
        have hx0 : x = [] := hpx hp
        subst hx0
        simp
      · rw [if_neg hp]
    rw [happ, if_neg hp1, hperm0]
    have hmats : ([] : List NdArr)
        ++ (s.powers.filterMap isIntPow).map
            (fun p => emap (fun v => fpow v p) (NdArr.d3 [x]))
        ++ ([] : List NdArr)
        ++ (if PElem.log ∈ s.powers then
              [emap (fun v => flog fns (fadd v (F.fin 1))) (NdArr.d3 [x])]
            else [])
        ++ []
        = ((s.powers.filterMap isIntPow).map (fun p => cmap (fun v => fpow v p) x)
            ++ (if PElem.log ∈ s.powers then
                [cmap (fun v => flog fns (fadd v (F.fin 1))) x] else [])).map
          (fun t => NdArr.d3 [t]) := by
      simp only [List.nil_append, List.append_nil, List.map_append,
        apply_ite (List.map (fun t => NdArr.d3 [t])), List.map_map, List.map_cons,
        List.map_nil, emap_d3one, Function.comp_def]
    rw [hmats]
    apply finishPieces_d3 (R := nrowsOf x) (C := x.length)
    · intro hnil
      simp only [List.append_eq_nil] at hnil
      obtain ⟨h1, h4⟩ := hnil
      rcases htrig with ⟨p, hp, hpne⟩ | hp
      · have hpmem : p ∈ s.powers.filterMap isIntPow :=
          List.mem_filterMap.mpr ⟨.pow p, hp, by simp [isIntPow, hpne]⟩
        exact List.ne_nil_of_mem (List.mem_map_of_mem _ hpmem) h1
      · rw [if_pos hp] at h4
        simp at h4
    · intro mat hmat
      simp only [List.mem_append] at hmat
      rcases hmat with h | h
      · obtain ⟨p, hp, rfl⟩ := List.mem_map.mp h
        exact ⟨nrowsOf_cmap _ x, length_cmap _ x⟩
      · by_cases hp : PElem.log ∈ s.powers
        · rw [if_pos hp] at h
          simp only [List.mem_singleton] at h
          subst h
          exact ⟨nrowsOf_cmap _ x, length_cmap _ x⟩
        · rw [if_neg hp] at h
          simp at h

/-- Concrete check of C1's hypotheses and conclusion on a fitted instance
configured with the identity and the log token. -/
theorem claim_C1_witness :
    (⟨[.pow 1, .log], some [false, true], none, none⟩ : Preparer).mask = some [false, true]
    ∧ (["a", "b"] : List String).length = [false, true].length
    ∧ (expand_columns_names_list ⟨[.pow 1, .log], some [false, true], none, none⟩ ["a", "b"]
        = .ok (["a", "b"] ++ ((([.pow 1, .log] : List PElem).filter
              (fun p => p ≠ PElem.pow 1)).map pstr).flatMap
            (fun pre => (((List.range ([false, true] : List Bool).length).filter
                (fun c => ([false, true] : List Bool).getD c false)).map
              (fun c => (["a", "b"] : List String).getD c "")).map (fun c2 => pre ++ "_" ++ c2)))
      ∧ (((([.pow 1, .log] : List PElem).filter (fun p => p ≠ PElem.pow 1)).map pstr).flatMap
            (fun pre => (maskFilter [false, true] ["a", "b"]).map (fun c => pre ++ "_" ++ c))).length
          = (([.pow 1, .log] : List PElem).filter (fun p => p ≠ PElem.pow 1)).length
            * (([false, true] : List Bool).count true)) :=
  ⟨rfl, rfl, claim_C1 ⟨[.pow 1, .log], some [false, true], none, none⟩ ["a", "b"]
    [false, true] rfl rfl⟩

/-- The counterexample for claim C1 as frozen: on a fitted instance whose
configuration contains the log token, the source prefixes the non-boolean
names with "log" as well, while the claim predicts names for the integer
powers only - the two outputs differ. -/
theorem claim_C1_cex :
    expand_columns_names_list ⟨[.pow 1, .log], some [false, true], none, none⟩ ["a", "b"]
      = .ok ["a", "b", "log_b"]
    ∧ claimNamesIntOnly ⟨[.pow 1, .log], some [false, true], none, none⟩ ["a", "b"]
      = ["a", "b"]
    ∧ (["a", "b", "log_b"] : List String) ≠ ["a", "b"] := by
  refine ⟨by decide, by decide, by decide⟩

/-- Concrete check of C3's hypotheses and conclusion on a freshly
constructed default instance. -/
theorem claim_C3_witness :
    (mkPreparer []).powers = [PElem.pow 1]
    ∧ apply_powers someFns (mkPreparer []) [[F.fin 2, F.fin 3]]
        = .ok (.d2 [[F.fin 2, F.fin 3]]) :=
  ⟨rfl, claim_C3 someFns (mkPreparer []) [[F.fin 2, F.fin 3]] rfl (Or.inl rfl)⟩

/-- Concrete check of C4's hypotheses and conclusion: fitting on the
spec's example matrix (a boolean column and a continuous column). -/
theorem claim_C4_witness :
    fit someFns (mkPreparer [.pow 1, .pow 2])
        [[F.fin 0, F.fin 1, F.fin 0, F.fin 1], [F.fin 1, F.fin 2, F.fin 3, F.fin 4]]
      = .ok ⟨[.pow 1, .pow 2], some [false, true], some [F.fin (mkRat 5 4)],
          some ([F.fin (mkRat 1 2), F.fin (mkRat 5 2), F.fin (mkRat 15 2)],
            [F.fin (mkRat 1 4), F.fin (mkRat 5 4), F.fin (mkRat 129 4)])⟩
    ∧ (1 < ([[F.fin 0, F.fin 1, F.fin 0, F.fin 1], [F.fin 1, F.fin 2, F.fin 3, F.fin 4]] : Mat).length)
    ∧ (((computeMask [[F.fin 0, F.fin 1, F.fin 0, F.fin 1], [F.fin 1, F.fin 2, F.fin 3, F.fin 4]]).getD 1 false = true
        ↔ 2 < (([[F.fin 0, F.fin 1, F.fin 0, F.fin 1], [F.fin 1, F.fin 2, F.fin 3, F.fin 4]] : Mat).getD 1 []).toFinset.card)
      ∧ maskSel2 (computeMask [[F.fin 0, F.fin 1, F.fin 0, F.fin 1], [F.fin 1, F.fin 2, F.fin 3, F.fin 4]])
          [[F.fin 9], [F.fin 8]]
        = .ok (((List.range 2).filter
            (fun i => (computeMask [[F.fin 0, F.fin 1, F.fin 0, F.fin 1], [F.fin 1, F.fin 2, F.fin 3, F.fin 4]]).getD i false)).map
          (fun i => ([[F.fin 9], [F.fin 8]] : Mat).getD i []))) := by
  have h := claim_C4 someFns (mkPreparer [.pow 1, .pow 2])
    [[F.fin 0, F.fin 1, F.fin 0, F.fin 1], [F.fin 1, F.fin 2, F.fin 3, F.fin 4]]
    ⟨[.pow 1, .pow 2], some [false, true], some [F.fin (mkRat 5 4)],
      some ([F.fin (mkRat 1 2), F.fin (mkRat 5 2), F.fin (mkRat 15 2)],
        [F.fin (mkRat 1 4), F.fin (mkRat 5 4), F.fin (mkRat 129 4)])⟩
    1 [[F.fin 9], [F.fin 8]] (by decide) (by decide) (by decide)
  exact ⟨by decide, by decide, h.2.2.1, h.2.2.2⟩

/-- Concrete check of C5's hypotheses and conclusion: perm token on a 2x2
matrix. -/
theorem claim_C5_witness :
    ColsLen 2 [[F.fin 1, F.fin 2], [F.fin 3, F.fin 4]]
    ∧ (apply_powers someFns (⟨[.pow 1, .perm], some [true, false], none, none⟩ : Preparer)
          [[F.fin 1, F.fin 2], [F.fin 3, F.fin 4]]
        = .ok (.d2 (idSeg ⟨[.pow 1, .perm], some [true, false], none, none⟩
              [[F.fin 1, F.fin 2], [F.fin 3, F.fin 4]]
            ++ (powSegs ⟨[.pow 1, .perm], some [true, false], none, none⟩
                (maskFilter [true, false] [[F.fin 1, F.fin 2], [F.fin 3, F.fin 4]])).flatten
            ++ permSeg [[F.fin 1, F.fin 2], [F.fin 3, F.fin 4]]
            ++ (if PElem.log ∈ ([.pow 1, .perm] : List PElem) then
                logSeg someFns (maskFilter [true, false] [[F.fin 1, F.fin 2], [F.fin 3, F.fin 4]]) else [])
            ++ (if PElem.exp ∈ ([.pow 1, .perm] : List PElem) then
                expSeg someFns (maskFilter [true, false] [[F.fin 1, F.fin 2], [F.fin 3, F.fin 4]]) [] else [])))
      ∧ (permSeg [[F.fin 1, F.fin 2], [F.fin 3, F.fin 4]]).length = 2 * (2 + 1) / 2
      ∧ (idSeg ⟨[.pow 1, .perm], some [true, false], none, none⟩
            [[F.fin 1, F.fin 2], [F.fin 3, F.fin 4]]
          ++ (powSegs ⟨[.pow 1, .perm], some [true, false], none, none⟩
              (maskFilter [true, false] [[F.fin 1, F.fin 2], [F.fin 3, F.fin 4]])).flatten).length
        = (if PElem.pow 1 ∈ ([.pow 1, .perm] : List PElem) then 2 else 0)
          + (([.pow 1, .perm] : List PElem).filterMap isIntPow).length
            * (([true, false] : List Bool).count true)) :=
  ⟨by decide, claim_C5 someFns ⟨[.pow 1, .perm], some [true, false], none, none⟩
    [[F.fin 1, F.fin 2], [F.fin 3, F.fin 4]] [true, false] [] 2
    rfl (by decide) (by decide) (by decide)
    (fun h => absurd h (by decide)) (by decide)⟩

/-- Concrete check of C6's hypotheses and conclusion: fitting data whose
first column is constant. -/
theorem claim_C6_witness :
    fitInner someFns (mkPreparer [.pow 1]) [[F.fin 5, F.fin 5], [F.fin 1, F.fin 3]]
      = .ok (⟨[.pow 1], some [false, false], some [],
          some ([F.fin 5, F.fin 2], [F.fin 1, F.fin 1])⟩,
        .d2 [[F.fin 5, F.fin 5], [F.fin 1, F.fin 3]])
    ∧ (transform someFns ⟨[.pow 1], some [false, false], some [],
          some ([F.fin 5, F.fin 2], [F.fin 1, F.fin 1])⟩
          [[F.fin 5, F.fin 5], [F.fin 1, F.fin 3]]
        = .ok (stdResult someFns [[F.fin 5, F.fin 5], [F.fin 1, F.fin 3]])
      ∧ (stdResult someFns [[F.fin 5, F.fin 5], [F.fin 1, F.fin 3]]).getD 0 []
          = List.replicate (([[F.fin 5, F.fin 5], [F.fin 1, F.fin 3]] : Mat).getD 0 []).length (F.fin 0)) :=
  ⟨by decide, claim_C6 someFns (mkPreparer [.pow 1]) [[F.fin 5, F.fin 5], [F.fin 1, F.fin 3]]
    ⟨[.pow 1], some [false, false], some [], some ([F.fin 5, F.fin 2], [F.fin 1, F.fin 1])⟩
    [[F.fin 5, F.fin 5], [F.fin 1, F.fin 3]] 0 5
    (by decide) (by decide) (by decide) (by decide)⟩

/-- Concrete check of C7's hypotheses and conclusion: log token over a
non-boolean column holding the value -5. -/
theorem claim_C7_witness :
    ColsLen 1 [[F.fin (-5)]]
    ∧ ((maskFilter [true] [[F.fin (-5)]]).getD 0 []).getD 0 F.nan = F.fin (-5)
    ∧ (apply_powers someFns (⟨[.pow 1, .log], some [true], none, none⟩ : Preparer) [[F.fin (-5)]]
        = .ok (.d2 (idSeg ⟨[.pow 1, .log], some [true], none, none⟩ [[F.fin (-5)]]
            ++ (powSegs ⟨[.pow 1, .log], some [true], none, none⟩
                (maskFilter [true] [[F.fin (-5)]])).flatten
            ++ (if PElem.perm ∈ ([.pow 1, .log] : List PElem) then permSeg [[F.fin (-5)]] else [])
            ++ logSeg someFns (maskFilter [true] [[F.fin (-5)]])
            ++ (if PElem.exp ∈ ([.pow 1, .log] : List PElem) then
                expSeg someFns (maskFilter [true] [[F.fin (-5)]]) [] else [])))
      ∧ ((logSeg someFns (maskFilter [true] [[F.fin (-5)]])).getD 0 []).getD 0 F.nan
          = flog someFns (fadd (F.fin (-5)) (F.fin 1))
      ∧ (flog someFns (fadd (F.fin (-5)) (F.fin 1))).isFinite = false) :=
  ⟨by decide, by decide, claim_C7 someFns ⟨[.pow 1, .log], some [true], none, none⟩
    [[F.fin (-5)]] [true] [] 1 0 0 (-5)
    rfl (by decide) (by decide) (fun h => absurd h (by decide)) (by decide)
    (by decide) (by decide)⟩

/-- The counterexample for claim C7 as frozen: with an entry of -5 in a
non-boolean column and the log token configured, the expansion does not
fail - it returns a matrix whose log column holds NaN. -/
theorem claim_C7_cex :
    isOkE (apply_powers someFns (⟨[.pow 1, .log], some [true], none, none⟩ : Preparer)
        [[F.fin (-5)]]) = true
    ∧ apply_powers someFns (⟨[.pow 1, .log], some [true], none, none⟩ : Preparer)
        [[F.fin (-5)]]
      = .ok (.d2 [[F.fin (-5)], [F.nan]]) := by
  refine ⟨by decide, by decide⟩

/-- Concrete check of C8's amended hypotheses and conclusion: an unfitted
instance configured with the identity marker and the exp token hits the
unconditional type-error branch. -/
theorem claim_C8_witness :
    (⟨[.pow 1, .exp], none, none, none⟩ : Preparer).mask = none
    ∧ (⟨[.pow 1, .exp], none, none, none⟩ : Preparer).origStd = none
    ∧ PElem.exp ∈ ([.pow 1, .exp] : List PElem)
    ∧ apply_powers someFns (⟨[.pow 1, .exp], none, none, none⟩ : Preparer)
        [[F.fin 1, F.fin 2]] = .error typeErrMsg :=
  ⟨rfl, rfl, by decide,
    (claim_C8 someFns ⟨[.pow 1, .exp], none, none, none⟩ [[F.fin 1, F.fin 2]]
      rfl rfl).1 (by decide)⟩

/-- The counterexample for claim C8 as frozen: an unfitted instance with
`powers = [2]` returns a 3-D array instead of failing with a dimension
error. -/
theorem claim_C8_cex :
    isOkE (apply_powers someFns (⟨[.pow 2], none, none, none⟩ : Preparer)
        [[F.fin 1, F.fin 2]]) = true
    ∧ apply_powers someFns (⟨[.pow 2], none, none, none⟩ : Preparer) [[F.fin 1, F.fin 2]]
      = .ok (.d3 [[[F.fin 1, F.fin 4]]]) := by
  refine ⟨by decide, by decide⟩

/-- Concrete check of C9's hypotheses and conclusion: an instance fitted
on 2 columns, transformed on 3 columns. -/
theorem claim_C9_witness :
    (⟨[.pow 1], some [true, true], none, none⟩ : Preparer).mask = some [true, true]
    ∧ ([[F.fin 1], [F.fin 2], [F.fin 3]] : Mat).length ≠ ([true, true] : List Bool).length
    ∧ transform someFns (⟨[.pow 1], some [true, true], none, none⟩ : Preparer)
        [[F.fin 1], [F.fin 2], [F.fin 3]]
      = .error maskErrMsg :=
  ⟨rfl, by decide, claim_C9 someFns ⟨[.pow 1], some [true, true], none, none⟩
    [[F.fin 1], [F.fin 2], [F.fin 3]] [true, true] rfl (by decide)⟩

/-- Concrete check of C10's hypotheses and conclusion: a previously fitted
instance and a fresh instance with the same configuration agree after
re-fitting. -/
theorem claim_C10_witness :
    (⟨[.pow 2], some [true], some [F.fin 1], none⟩ : Preparer).powers
        = (mkPreparer [.pow 2]).powers
    ∧ (fit someFns (⟨[.pow 2], some [true], some [F.fin 1], none⟩ : Preparer)
          [[F.fin 1, F.fin 2, F.fin 3]]
        = fit someFns (mkPreparer [.pow 2]) [[F.fin 1, F.fin 2, F.fin 3]]
      ∧ (fit someFns (⟨[.pow 2], some [true], some [F.fin 1], none⟩ : Preparer)
            [[F.fin 1, F.fin 2, F.fin 3]]).bind
          (fun t => transform someFns t [[F.fin 4, F.fin 5, F.fin 6]])
        = (fit someFns (mkPreparer [.pow 2]) [[F.fin 1, F.fin 2, F.fin 3]]).bind
          (fun t => transform someFns t [[F.fin 4, F.fin 5, F.fin 6]])
      ∧ (fit someFns (⟨[.pow 2], some [true], some [F.fin 1], none⟩ : Preparer)
            [[F.fin 1, F.fin 2, F.fin 3]]).bind
          (fun t => expand_columns_names_list t ["a"])
        = (fit someFns (mkPreparer [.pow 2]) [[F.fin 1, F.fin 2, F.fin 3]]).bind
          (fun t => expand_columns_names_list t ["a"])) :=
  ⟨rfl, claim_C10 someFns [.pow 2] ⟨[.pow 2], some [true], some [F.fin 1], none⟩
    [[F.fin 1, F.fin 2, F.fin 3]] [[F.fin 4, F.fin 5, F.fin 6]] ["a"] rfl⟩

end MLHelper
